/-
  Verification of the Folio-OCR server core (src/server.py) against its
  natural-language specification.

  Shallow-embedding conventions:
  * Python strings are modelled as `String` / `List Char`.  `str.strip()` is
    modelled over the six ASCII whitespace characters; the regex classes
    `\w`, `\s`, `\d` are modelled over ASCII (`Char.isAlphanum` plus `_`,
    the same six whitespace characters, `Char.isDigit`).
  * Each regex substitution of `server.py` is embedded as a left-to-right
    scanner (leftmost, non-overlapping matches, scanning continues after the
    replacement), fueled by the input length so that every definition is
    structurally recursive and executable by the kernel.
  * External collaborators are parameters: the OCR engine is an oracle
    `Box → Except String String` (an `Except.error` models a raised
    exception), the layout detector a function of the image file name, the
    HTML tokenizer of `html.parser` a function `String → List HtmlTok`, the
    wall clock a number, images their pixel dimensions.
  * `latex_unicode.json` is not under `src/`; the LaTeX substitution tables
    are therefore parameters (`LatexTables`), matching the configuration
    surface described by the spec.
-/
import Mathlib

set_option maxRecDepth 8000

/-! ## Python string primitives -/

/-- ASCII model of Python's `str.strip()` whitespace class and of the regex
class `\s`: space, tab, newline, carriage return, vertical tab, form feed. -/
def isPySpace (c : Char) : Bool :=
  c == ' ' || c == '\t' || c == '\n' || c == '\r' || c == '\x0b' || c == '\x0c'

/-- ASCII model of the regex class `\w`. -/
def isWordChar (c : Char) : Bool := c.isAlphanum || c == '_'

/-- Drop leading characters satisfying `p` and trailing characters
satisfying `p`: the general shape of Python's `str.strip(chars)`. -/
def pyStripP (p : Char → Bool) (l : List Char) : List Char :=
  ((l.dropWhile p).reverse.dropWhile p).reverse

/-- Python `str.strip()` on a character list. -/
def pyStrip (l : List Char) : List Char := pyStripP isPySpace l

/-- Python `"sep".join(list)`. -/
def pyJoin (sep : String) : List String → String
  | [] => ""
  | [a] => a
  | a :: b :: rest => a ++ sep ++ pyJoin sep (b :: rest)

/-- Python `s.split(sep)` for a single-character separator (no collapsing of
adjacent separators, `"".split(c) = [""]`). -/
def splitOnCharGo (sep : Char) : List Char → List Char → List (List Char)
  | acc, [] => [acc.reverse]
  | acc, c :: cs => if c == sep then acc.reverse :: splitOnCharGo sep [] cs
                    else splitOnCharGo sep (c :: acc) cs

def splitOnChar (sep : Char) (l : List Char) : List (List Char) :=
  splitOnCharGo sep [] l

/-- Python `s or ""` applied to a string (the identity, since the only falsy
string is `""` itself, which maps to `""`). -/
def pyOr (s : String) : String := if s = "" then "" else s

theorem pyOr_eq (s : String) : pyOr s = s := by
  unfold pyOr; split <;> simp_all

/-! ## Text normalizer (`_postprocess`, `_latex_to_unicode`) -/

/-- LaTeX → Unicode substitution tables.  `server.py` loads them from
`latex_unicode.json` (not part of `src/`); the spec describes them as
configuration loaded once at process start, so they are a parameter here.
`simple` is `_LATEX_SIMPLE` (already sorted longest-command-first, as the
loader does) and `fractions` is `_LATEX_FRACTIONS`. -/
structure LatexTables where
  simple : List (String × String)
  fractions : List (String × String)

/-- The `_CIRCLED` table of `server.py`: `"1".."20"` mapped to `①`–`⑳`. -/
def circledTable : List (List Char × Char) :=
  (List.range 20).map (fun i => ((toString (i + 1)).data, Char.ofNat (0x2460 + i)))

/-- Strip one leading fenced-code delimiter: the substitution
`re.sub(r'^```\w*\n?', '', s)` (the `^` anchor admits at most one match,
at the start of the string). -/
def stripLeadingFence (l : List Char) : List Char :=
  if ['`', '`', '`'].isPrefixOf l then
    let rest := (l.drop 3).dropWhile isWordChar
    if rest.head? = some '\n' then rest.tail else rest
  else l

/-- Strip one trailing fenced-code delimiter: `re.sub(r'\n?```$', '', s)`.
Python's `$` matches at the end of the string or just before one final
newline; both cases are covered (in `_postprocess` the input is already
stripped, so the second case is unreachable there). -/
def stripTrailingFence (l : List Char) : List Char :=
  let r := l.reverse
  if ['`', '`', '`'].isPrefixOf r then
    let rest := r.drop 3
    (if rest.head? = some '\n' then rest.tail else rest).reverse
  else if ['\n', '`', '`', '`'].isPrefixOf r then
    let rest := r.drop 4
    ('\n' :: (if rest.head? = some '\n' then rest.tail else rest)).reverse
  else l

/-- The characters of the literal `$\textcircled{`. -/
def circledPat : List Char :=
  ['$', '\\', 't', 'e', 'x', 't', 'c', 'i', 'r', 'c', 'l', 'e', 'd', '{']

/-- Try to match `\$\\textcircled\{(\d+)\}\$` at the head of `l`; on success
return the digit group and the remainder of the input after the match. -/
def matchCircled (l : List Char) : Option (List Char × List Char) :=
  if circledPat.isPrefixOf l then
    let rest := l.drop 14
    let digits := rest.takeWhile Char.isDigit
    if digits.isEmpty then none
    else
      match rest.dropWhile Char.isDigit with
      | '}' :: '$' :: r2 => some (digits, r2)
      | _ => none
  else none

/-- Global substitution of `\$\\textcircled\{(\d+)\}\$`; an unmapped number
leaves the matched text unchanged (`_CIRCLED.get(m.group(1), m.group(0))`). -/
def circledGo : Nat → List Char → List Char
  | 0, l => l
  | _ + 1, [] => []
  | fuel + 1, c :: cs =>
    match matchCircled (c :: cs) with
    | some (digits, r2) =>
      (match circledTable.lookup digits with
       | some ch => [ch]
       | none => circledPat ++ digits ++ ['}', '$']) ++ circledGo fuel r2
    | none => c :: circledGo fuel cs

def circledSub (l : List Char) : List Char := circledGo l.length l

/-- The characters of the literal `$\frac{`. -/
def fracPat : List Char := ['$', '\\', 'f', 'r', 'a', 'c', '{']

/-- Try to match `\$\\frac\{([^}]+)\}\{([^}]+)\}\$` at the head of `l`;
on success return numerator, denominator and the remainder. -/
def matchFrac (l : List Char) : Option (List Char × List Char × List Char) :=
  if fracPat.isPrefixOf l then
    let rest := l.drop 7
    let num := rest.takeWhile (fun c => !(c == '}'))
    if num.isEmpty then none
    else
      match rest.dropWhile (fun c => !(c == '}')) with
      | '}' :: '{' :: rest2 =>
        let den := rest2.takeWhile (fun c => !(c == '}'))
        if den.isEmpty then none
        else
          match rest2.dropWhile (fun c => !(c == '}')) with
          | '}' :: '$' :: r3 => some (num, den, r3)
          | _ => none
      | _ => none
  else none

/-- `_replace_frac`: the replacement text for a matched fraction, looked up
by the literal key `"a/b"`, falling back to the literal `"a/b"`. -/
def fracReplacement (fracs : List (String × String)) (num den : List Char) :
    List Char :=
  let key := num ++ '/' :: den
  match fracs.lookup (String.mk key) with
  | some glyph => glyph.data
  | none => key

/-- Global substitution of `\$\\frac\{([^}]+)\}\{([^}]+)\}\$` via
`_replace_frac`. -/
def fracGo (fracs : List (String × String)) : Nat → List Char → List Char
  | 0, l => l
  | _ + 1, [] => []
  | fuel + 1, c :: cs =>
    match matchFrac (c :: cs) with
    | some (num, den, r3) => fracReplacement fracs num den ++ fracGo fracs fuel r3
    | none => c :: fracGo fracs fuel cs

def fracSub (fracs : List (String × String)) (l : List Char) : List Char :=
  fracGo fracs l.length l

/-- Python `str.replace(pat, rep)` (leftmost, non-overlapping, scanning
continues after the replacement).  The patterns used by `server.py` are
never empty; `pat = []` leaves the input unchanged. -/
def replGo (pat rep : List Char) : Nat → List Char → List Char
  | 0, l => l
  | _ + 1, [] => []
  | fuel + 1, c :: cs =>
    if !pat.isEmpty && pat.isPrefixOf (c :: cs) then
      rep ++ replGo pat rep fuel ((c :: cs).drop pat.length)
    else c :: replGo pat rep fuel cs

def pyReplace (pat rep l : List Char) : List Char := replGo pat rep l.length l

/-- Step 3 of `_latex_to_unicode`: for each `(latex_cmd, unicode_char)` of
`_LATEX_SIMPLE` (longest first), replace every `$latex_cmd$` by the
character.  The `if token in text` guard of the source is a no-op
optimization over `str.replace`. -/
def simpleSub (simple : List (String × String)) (l : List Char) : List Char :=
  simple.foldl (fun t pr => pyReplace ('$' :: pr.1.data ++ ['$']) pr.2.data t) l

/-- Try to match `\$\\([a-zA-Z]+)\$` at the head of `l`. -/
def matchBareMath (l : List Char) : Option (List Char × List Char) :=
  if ['$', '\\'].isPrefixOf l then
    let letters := (l.drop 2).takeWhile Char.isAlpha
    if letters.isEmpty then none
    else
      match (l.drop 2).dropWhile Char.isAlpha with
      | '$' :: r2 => some (letters, r2)
      | _ => none
  else none

/-- Step 4 of `_latex_to_unicode`: unwrap a remaining `$\command$` to
`\command`. -/
def bareMathGo : Nat → List Char → List Char
  | 0, l => l
  | _ + 1, [] => []
  | fuel + 1, c :: cs =>
    match matchBareMath (c :: cs) with
    | some (letters, r2) => '\\' :: letters ++ bareMathGo fuel r2
    | none => c :: bareMathGo fuel cs

def bareMathSub (l : List Char) : List Char := bareMathGo l.length l

/-- `_latex_to_unicode`: the four substitution steps in the source's order. -/
def _latex_to_unicode (tbl : LatexTables) (l : List Char) : List Char :=
  bareMathSub (simpleSub tbl.simple (fracSub tbl.fractions (circledSub l)))

/-- `_postprocess`: strip markdown fences, convert LaTeX to Unicode, and trim
whitespace. -/
def _postprocess (tbl : LatexTables) (s : String) : String :=
  let t1 := stripLeadingFence (pyStrip s.data)
  let t2 := stripTrailingFence (pyStrip t1)
  String.mk (pyStrip (_latex_to_unicode tbl t2))

/-- Modelled from the spec: `latex_unicode.json` is not under `src/`.  The
spec describes the tables as LaTeX-command → Unicode maps with, e.g.,
`"1/2"` mapped to `½` and `"3/7"` unmapped (§8), `simple` tried
longest-token-first (§4.4).  A small concrete instance for closed
theorems. -/
def specTables : LatexTables where
  simple := [("\\alpha", "α"), ("\\beta", "β"), ("\\pm", "±")]
  fractions := [("1/2", "½"), ("1/4", "¼"), ("3/4", "¾")]

example : _postprocess specTables "  hello  " = "hello" := by decide
example : _postprocess specTables "```md\nhi\n```" = "hi" := by decide
example : _postprocess specTables "$\\alpha$ x" = "α x" := by decide
example : _postprocess specTables "$\\gamma$" = "\\gamma" := by decide
example :
    _postprocess specTables
        "$\\frac\x7b1\x7d\x7b2\x7d$ and $\\frac\x7b3\x7d\x7b7\x7d$"
      = "½ and 3/7" := by decide
example : _postprocess specTables "$\\textcircled\x7b3\x7d$" = "③" := by decide
example : _postprocess specTables "```\n```x" = "```x" := by decide
example : _postprocess specTables "```x" = "" := by decide

/-! ## Tall-image splitter (`_split_image`, `_ocr_whole_image` fallback) -/

def MAX_IMAGE_HEIGHT : Nat := 1600
def SEGMENT_OVERLAP : Nat := 80

/-- The `while y < h` loop of `_split_image`, producing the vertical range
`(y, bottom)` of each cropped segment.  The loop advances `y` by
`MAX_IMAGE_HEIGHT - SEGMENT_OVERLAP = 1520` per iteration, so `h` units of
fuel always suffice (see `splitGo_fuel_irrelevant`-style lemmas below). -/
def splitGo : Nat → Nat → Nat → List (Nat × Nat)
  | 0, _, _ => []
  | fuel + 1, h, y =>
    if y < h then
      let bottom := min (y + MAX_IMAGE_HEIGHT) h
      (y, bottom) ::
        (if bottom = h then []
         else splitGo fuel h (y + (MAX_IMAGE_HEIGHT - SEGMENT_OVERLAP)))
    else []

/-- `_split_image`: split a tall image of height `h` into overlapping
segments, each given by its vertical pixel range (the crop box is
`(0, y, w, bottom)`). -/
def _split_image (h : Nat) : List (Nat × Nat) := splitGo h h 0

/-- The segment selection of `_ocr_whole_image`: `_split_image` when
`h > MAX_IMAGE_HEIGHT`, otherwise the whole image as its single segment. -/
def fallbackSegments (h : Nat) : List (Nat × Nat) :=
  if MAX_IMAGE_HEIGHT < h then _split_image h else [(0, h)]

example : _split_image 2000 = [(0, 1600), (1520, 2000)] := by decide
example : _split_image 4000 = [(0, 1600), (1520, 3120), (3040, 4000)] := by
  decide
example : fallbackSegments 1000 = [(0, 1000)] := by decide

/-! ## Region selector (`detect_layout`) -/

/-- One raw detection as delivered by the external detector's
post-processing: a label, an un-rounded bounding box `(x1, y1, x2, y2)`
and a confidence score.  Coordinates and scores are modelled as exact
rationals. -/
structure RawDet where
  label : String
  box : ℚ × ℚ × ℚ × ℚ
  score : ℚ
deriving DecidableEq

/-- A selected region: `{label, bbox = [x1, y1, x2, y2] rounded to pixels,
score rounded to 3 decimals}`. -/
structure Region where
  label : String
  bbox : ℤ × ℤ × ℤ × ℤ
  score : ℚ
deriving DecidableEq

/-- Python's `round()` (banker's rounding: ties go to the even integer). -/
def pyRound (q : ℚ) : ℤ :=
  let f := ⌊q⌋
  if q - f < 1 / 2 then f
  else if 1 / 2 < q - f then f + 1
  else if f % 2 = 0 then f else f + 1

/-- Python's `round(x, 3)`. -/
def pyRound3 (q : ℚ) : ℚ := (pyRound (q * 1000) : ℚ) / 1000

example : pyRound (7 / 2) = 4 := by norm_num [pyRound]
example : pyRound (5 / 2) = 2 := by norm_num [pyRound]
example : pyRound (-3 / 2) = -2 := by norm_num [pyRound]
example : pyRound3 (123456 / 100000) = 1235 / 1000 := by
  norm_num [pyRound3, pyRound]

/-- `_LAYOUT_SKIP_LABELS` (the source's set literal names `"footer"`
twice; as a set it has these four elements). -/
def _LAYOUT_SKIP_LABELS : List String := ["header", "footer", "footnote", "number"]

/-- Rounding applied to one surviving detection (the loop body of
`detect_layout`). -/
def roundedRegion (d : RawDet) : Region :=
  { label := d.label
    bbox := (pyRound d.box.1, pyRound d.box.2.1, pyRound d.box.2.2.1,
             pyRound d.box.2.2.2)
    score := pyRound3 d.score }

/-- The sort key of `detect_layout`: ascending top edge `y1`, ties broken by
ascending left edge `x1` (`key=lambda r: (r["bbox"][1], r["bbox"][0])`). -/
def regionLE (a b : Region) : Bool :=
  decide (a.bbox.2.1 < b.bbox.2.1 ∨
    (a.bbox.2.1 = b.bbox.2.1 ∧ a.bbox.1 ≤ b.bbox.1))

/-- Insert into a sorted list: the building block of a stable sort.  Python's
`list.sort` is stable; any two stable sorts with the same key agree, so
insertion sort is an exact model of it. -/
def insSorted (le : α → α → Bool) (x : α) : List α → List α
  | [] => [x]
  | y :: ys => if le x y then x :: y :: ys else y :: insSorted le x ys

def insSort (le : α → α → Bool) : List α → List α
  | [] => []
  | x :: xs => insSorted le x (insSort le xs)

/-- `detect_layout`, given the labeled, scored detections.  The score
threshold filter is Modelled from the spec: it happens inside the external
`post_process_object_detection` call (the `transformers` library, not
repository code), to which `server.py` passes `_LAYOUT_THRESHOLD = 0.5`;
per the spec (§4.1) a region whose score is below the threshold is
discarded.  Everything after it — the skip-label filter, the coordinate
rounding, the reading-order sort — is the repository's own loop. -/
def detect_layout (dets : List RawDet) : List Region :=
  let results := dets.filter (fun d => !decide (d.score < 1 / 2))
  let regions := results.filterMap (fun d =>
    if d.label ∈ _LAYOUT_SKIP_LABELS then none else some (roundedRegion d))
  insSort regionLE regions

example :
    detect_layout
        [{ label := "text", box := (10, 52, 20, 60), score := 9 / 10 },
         { label := "header", box := (0, 0, 5, 5), score := 9 / 10 },
         { label := "title", box := (2 / 5, 1, 7, 9), score := 6 / 10 },
         { label := "text", box := (3, 3, 8, 9), score := 2 / 10 }]
      = [{ label := "title", bbox := (0, 1, 7, 9), score := 6 / 10 },
         { label := "text", bbox := (10, 52, 20, 60), score := 9 / 10 }] := by
  have h1 : Int.fract ((2 : ℚ) / 5) = 2 / 5 := by rw [Int.fract]; norm_num
  norm_num [detect_layout, roundedRegion, regionLE, insSort, insSorted,
    _LAYOUT_SKIP_LABELS, pyRound, pyRound3, h1]

/-! ## OCR dispatch pipeline (`ocr_image_with_layout`, `_ocr_whole_image`) -/

/-- A crop box `(x1, y1, x2, y2)` handed to the OCR engine.  The engine is
an oracle from the cropped area to `Except String String`: `Except.error`
models a raised exception (e.g. `httpx` errors of `_ocr_single`), `.ok`
the recognized raw text. -/
abbrev Box := ℤ × ℤ × ℤ × ℤ

/-- One per-region OCR result: `{idx, label, bbox, text}`. -/
structure OcrRegion where
  idx : Nat
  label : String
  bbox : Box
  text : String
deriving DecidableEq

/-- The per-region loop of `ocr_image_with_layout` (step 2): crop each
region in order, OCR it, post-process, and collect; a raised exception
aborts the loop (and is caught only by the endpoint). -/
def regionsLoop (tbl : LatexTables) (ocr : Box → Except String String) :
    Nat → List Region → Except String (List OcrRegion)
  | _, [] => .ok []
  | i, r :: rs =>
    match ocr r.bbox with
    | .error e => .error e
    | .ok raw =>
      let t := _postprocess tbl raw
      match regionsLoop tbl ocr (i + 1) rs with
      | .error e => .error e
      | .ok rest =>
        .ok ({ idx := i, label := r.label, bbox := r.bbox, text := pyOr t } :: rest)

/-- The per-segment loop of `_ocr_whole_image`: OCR each fallback segment
`(y, bottom)` (crop box `(0, y, w, bottom)`), post-process, and keep the
non-empty texts. -/
def wholeLoop (tbl : LatexTables) (w : Nat) (ocr : Box → Except String String) :
    List (Nat × Nat) → Except String (List String)
  | [] => .ok []
  | s :: ss =>
    match ocr (0, (s.1 : ℤ), (w : ℤ), (s.2 : ℤ)) with
    | .error e => .error e
    | .ok raw =>
      let t := _postprocess tbl raw
      match wholeLoop tbl w ocr ss with
      | .error e => .error e
      | .ok rest => .ok (if t = "" then rest else t :: rest)

/-- `_ocr_whole_image`: fallback OCR of the whole image of width `w` and
height `h`, splitting tall images. -/
def _ocr_whole_image (tbl : LatexTables) (w h : Nat)
    (ocr : Box → Except String String) : Except String String :=
  match wholeLoop tbl w ocr (fallbackSegments h) with
  | .error e => .error e
  | .ok texts => .ok (pyJoin "\n\n" texts)

/-- `ocr_image_with_layout`: layout detection + per-region OCR.  The
detector's selected regions are the `raw` argument (the image itself enters
only through its dimensions and the oracle).  Returns
`(combined_text, regions)`. -/
def ocr_image_with_layout (tbl : LatexTables) (w h : Nat) (raw : List Region)
    (ocr : Box → Except String String) :
    Except String (String × List OcrRegion) :=
  if raw.isEmpty then
    match _ocr_whole_image tbl w h ocr with
    | .error e => .error e
    | .ok t => .ok (t, [])
  else
    match regionsLoop tbl ocr 0 raw with
    | .error e => .error e
    | .ok regs =>
      .ok (pyJoin "\n\n" ((regs.map (·.text)).filter (fun s => !(s == ""))), regs)

/-! ## OCR endpoints (`ocr_single_page`, `ocr_all_pages`) -/

/-- The page state stored in `documents[doc_id]["pages"]`. -/
structure Page where
  num : ℤ
  filename : String
  ocr_text : Option String
  ocr_regions : Option (List OcrRegion)
  ocr_time : Option Nat
deriving DecidableEq

/-- The shared OCR block of both endpoints (`if layout: ... else: ...`);
`dims` gives an image's `(width, height)` and `detect` the selected layout
regions of an image file. -/
def runPageOcr (tbl : LatexTables) (layout : Bool) (pg : Page)
    (dims : String → Nat × Nat) (detect : String → List Region)
    (ocr : Box → Except String String) :
    Except String (String × List OcrRegion) :=
  if layout then
    ocr_image_with_layout tbl (dims pg.filename).1 (dims pg.filename).2
      (detect pg.filename) ocr
  else
    match _ocr_whole_image tbl (dims pg.filename).1 (dims pg.filename).2 ocr with
    | .error e => .error e
    | .ok t => .ok (t, [])

/-- An endpoint outcome: a payload or an `HTTPException(code, detail)`. -/
inductive ApiResp (α : Type) where
  | ok (val : α)
  | httpError (code : Nat) (detail : String)
deriving DecidableEq

/-- The JSON payload of `ocr_single_page`. -/
structure OcrResponse where
  page_num : ℤ
  text : String
  regions : List OcrRegion
  time : Option Nat
  cached : Bool
deriving DecidableEq

/-- Replace the first page with the given number (the endpoint mutates the
found page dict in place). -/
def updateFirst : List Page → ℤ → Page → List Page
  | [], _, _ => []
  | p :: ps, n, p' => if p.num = n then p' :: ps else p :: updateFirst ps n p'

/-- `ocr_single_page`: run OCR on one page of the (already looked-up)
document; `clock` is the elapsed time the endpoint would record.  Returns
the response and the updated page list. -/
def ocr_single_page (tbl : LatexTables) (clock : Nat) (pages : List Page)
    (page_num : ℤ) (layout : Bool) (imgExists : String → Bool)
    (dims : String → Nat × Nat) (detect : String → List Region)
    (ocr : Box → Except String String) : ApiResp OcrResponse × List Page :=
  match pages.find? (fun p => p.num == page_num) with
  | none => (.httpError 404 ("Page " ++ toString page_num ++ " not found"), pages)
  | some page =>
    match page.ocr_text with
    | some t =>
      (.ok { page_num := page_num, text := t,
             regions := page.ocr_regions.getD [], time := page.ocr_time,
             cached := true }, pages)
    | none =>
      if imgExists page.filename then
        match runPageOcr tbl layout page dims detect ocr with
        | .error e => (.httpError 500 ("OCR failed: " ++ e), pages)
        | .ok (text, regions) =>
          (.ok { page_num := page_num, text := text, regions := regions,
                 time := some clock, cached := false },
           updateFirst pages page.num
             { page with ocr_text := some text, ocr_regions := some regions,
                         ocr_time := some clock })
      else (.httpError 404 "Image file not found", pages)

/-- One entry of the `results` list of `ocr_all_pages` (fields absent from a
given branch of the source are `none`). -/
structure PageResult where
  page_num : ℤ
  text : Option String
  regions : List OcrRegion
  time : Option Nat
  cached : Option Bool
  error : Option String
deriving DecidableEq

/-- The loop body of `ocr_all_pages` for one page: the result entry and the
(possibly updated) page state.  A raised exception is caught per page: the
page is recorded as an errored entry with `text = None` and `regions = []`
and the loop continues. -/
def pageStep (tbl : LatexTables) (clock : Nat) (layout : Bool)
    (dims : String → Nat × Nat) (detect : String → List Region)
    (ocr : Box → Except String String) (p : Page) : PageResult × Page :=
  match p.ocr_text with
  | some t =>
    ({ page_num := p.num, text := some t, regions := p.ocr_regions.getD [],
       time := p.ocr_time, cached := some true, error := none }, p)
  | none =>
    match runPageOcr tbl layout p dims detect ocr with
    | .ok (text, regions) =>
      ({ page_num := p.num, text := some text, regions := regions,
         time := some clock, cached := some false, error := none },
       { p with ocr_text := some text, ocr_regions := some regions,
                ocr_time := some clock })
    | .error e =>
      ({ page_num := p.num, text := none, regions := [], time := none,
         cached := none, error := some e }, p)

/-- `ocr_all_pages`: run OCR on every page, retaining cached pages and
recording per-page errors; returns the results list and the updated
pages. -/
def ocr_all_pages (tbl : LatexTables) (clock : Nat) (pages : List Page)
    (layout : Bool) (dims : String → Nat × Nat)
    (detect : String → List Region) (ocr : Box → Except String String) :
    List PageResult × List Page :=
  match pages with
  | [] => ([], [])
  | p :: ps =>
    let (r, p') := pageStep tbl clock layout dims detect ocr p
    let (rs, ps') := ocr_all_pages tbl clock ps layout dims detect ocr
    (r :: rs, p' :: ps')

/-! ## Structured parser (`_parse_ocr_text`, `_parse_md_table`, `_TableParser`) -/

/-- A parsed element: `{type: 'heading'|'paragraph'|'table', ...}`. -/
inductive MdElement where
  | heading (level : Nat) (text : String)
  | paragraph (text : String)
  | table (rows : List (List String)) (headerRows : Finset Nat)
deriving DecidableEq

/-- One event of the stdlib `html.parser` tokenizer, which is external to
the repository; `server.py` only implements the `handle_*` callbacks.  The
tokenizer is a parameter `String → List HtmlTok` throughout. -/
inductive HtmlTok where
  | startTag (tag : String)
  | endTag (tag : String)
  | dataTok (s : String)
deriving DecidableEq

/-- The mutable state of `_TableParser`. -/
structure TPState where
  rows : List (List String)
  inCell : Bool
  cellText : String
  currentRow : List String
  isHeaderRow : Bool
  headerRowIndices : Finset Nat

def TPState.init : TPState :=
  { rows := [], inCell := false, cellText := "", currentRow := [],
    isHeaderRow := false, headerRowIndices := ∅ }

/-- Python `str.lower()` (ASCII model, matching `tag.lower()` on tag
names). -/
def lowerStr (s : String) : String := String.mk (s.data.map Char.toLower)

/-- `_TableParser.handle_starttag` / `handle_endtag` / `handle_data`. -/
def tpHandle (st : TPState) : HtmlTok → TPState
  | .startTag tag0 =>
    let tag := lowerStr tag0
    if tag = "tr" then { st with currentRow := [], isHeaderRow := false }
    else if tag = "td" ∨ tag = "th" then
      { st with inCell := true, cellText := "",
                isHeaderRow := if tag = "th" then true else st.isHeaderRow }
    else st
  | .endTag tag0 =>
    let tag := lowerStr tag0
    if tag = "td" ∨ tag = "th" then
      { st with inCell := false,
                currentRow := st.currentRow ++ [String.mk (pyStrip st.cellText.data)] }
    else if tag = "tr" then
      if st.currentRow ≠ [] then
        { st with
            headerRowIndices :=
              if st.isHeaderRow then insert st.rows.length st.headerRowIndices
              else st.headerRowIndices,
            rows := st.rows ++ [st.currentRow] }
      else st
    else st
  | .dataTok s =>
    if st.inCell then { st with cellText := st.cellText ++ s } else st

/-- `_TableParser.feed`: fold the tokenizer's events through the
handlers. -/
def tableFeed (toks : List HtmlTok) : TPState := toks.foldl tpHandle .init

/-- Case-insensitive prefix test (letters of the pattern are given in lower
case). -/
def ciPrefixOf : List Char → List Char → Bool
  | [], _ => true
  | _ :: _, [] => false
  | p :: ps, c :: cs => (p == c.toLower) && ciPrefixOf ps cs

/-- First index (if any) at which the case-insensitive pattern occurs. -/
def findCiSub (pat : List Char) : List Char → Option Nat
  | [] => if pat.isEmpty then some 0 else none
  | c :: cs =>
    if ciPrefixOf pat (c :: cs) then some 0
    else (findCiSub pat cs).map (· + 1)

def tableOpenPat : List Char := ['<', 't', 'a', 'b', 'l', 'e']
def tableClosePat : List Char := ['<', '/', 't', 'a', 'b', 'l', 'e', '>']

/-- Find the leftmost, shortest match of `<table[\s\S]*?</table>`
(case-insensitive): the first position carrying `<table` that is followed by
a `</table>`; returns `(before, match, after)`. -/
def findTableMatch : List Char → Option (List Char × List Char × List Char)
  | [] => none
  | c :: cs =>
    if ciPrefixOf tableOpenPat (c :: cs) then
      match findCiSub tableClosePat ((c :: cs).drop 6) with
      | some k =>
        some ([], (c :: cs).take (6 + k + 8), (c :: cs).drop (6 + k + 8))
      | none =>
        (findTableMatch cs).map (fun pr => (c :: pr.1, pr.2.1, pr.2.2))
    else (findTableMatch cs).map (fun pr => (c :: pr.1, pr.2.1, pr.2.2))

/-- `re.split(r'(<table[\s\S]*?</table>)', text, flags=re.IGNORECASE)`:
alternating non-matching text and captured table blocks. -/
def htmlSplitGo : Nat → List Char → List (List Char)
  | 0, l => [l]
  | fuel + 1, l =>
    match findTableMatch l with
    | none => [l]
    | some (pre, m, rest) => pre :: m :: htmlSplitGo fuel rest

def htmlSplit (l : List Char) : List (List Char) := htmlSplitGo (l.length + 1) l

/-- `re.match(r'^<table[\s\S]*</table>$', part, re.IGNORECASE)`: the part
starts with `<table`, ends with `</table>`, and is long enough for the two
not to overlap. -/
def isTablePart (l : List Char) : Bool :=
  ciPrefixOf tableOpenPat l
    && ciPrefixOf tableClosePat.reverse (l.reverse.map Char.toLower)
    && decide (14 ≤ l.length)

/-- One cell row of `_parse_md_table`: strip the line, strip outer `|`
characters, split on `|`, and strip each cell. -/
def mdRowCells (line : List Char) : List String :=
  (splitOnChar '|' (pyStripP (fun c => c == '|') (pyStrip line))).map
    (fun c => String.mk (pyStrip c))

/-- Does a (trimmed) cell consist of `-` and `:` characters only
(`re.match(r'^[-:]+$', c)` for a non-empty cell)? -/
def isSepCell (s : String) : Bool :=
  !s.data.isEmpty && s.data.all (fun ch => ch == '-' || ch == ':')

/-- `_parse_md_table`: parse buffered markdown-table lines into rows,
dropping separator rows (`all(re.match(r'^[-:]+$', c) for c in cells if c)`:
a row is dropped when every non-empty cell is separator-only, vacuously
including an all-empty row). -/
def _parse_md_table : List (List Char) → List (List String)
  | [] => []
  | line :: rest =>
    let cells := mdRowCells line
    if cells.all (fun c => c == "" || isSepCell c) then _parse_md_table rest
    else cells :: _parse_md_table rest

/-- Flush the buffered markdown-table lines: `header_rows = {0}` (`first row
is header in md tables`). -/
def flushMdTable (buf : List (List Char)) : List MdElement :=
  if buf.isEmpty then []
  else
    let rows := _parse_md_table buf
    if rows.isEmpty then [] else [.table rows {0}]

/-- Is a (trimmed) line provisionally a markdown-table row?
`'|' in trimmed and (trimmed.startswith('|') or re.search(r'\w\s*\|', trimmed))`. -/
def hasWordPipe : List Char → Bool
  | [] => false
  | c :: cs =>
    (isWordChar c && ((cs.dropWhile isPySpace).head? == some '|')) || hasWordPipe cs

def isMdTableRow (trimmed : List Char) : Bool :=
  trimmed.contains '|'
    && (trimmed.head? == some '|' || hasWordPipe trimmed)

/-- Classify one non-table line: headings by `#` level, else a paragraph if
non-blank (blank lines are dropped). -/
def classifyLine (trimmed : List Char) : List MdElement :=
  if ['#', '#', '#', ' '].isPrefixOf trimmed then
    [.heading 3 (String.mk (trimmed.drop 4))]
  else if ['#', '#', ' '].isPrefixOf trimmed then
    [.heading 2 (String.mk (trimmed.drop 3))]
  else if ['#', ' '].isPrefixOf trimmed then
    [.heading 1 (String.mk (trimmed.drop 2))]
  else if trimmed.isEmpty then []
  else [.paragraph (String.mk trimmed)]

/-- The line loop of `_parse_ocr_text` over one non-table part, carrying the
markdown-table buffer. -/
def linesGo : List (List Char) → List (List Char) → List MdElement
  | [], buf => flushMdTable buf
  | line :: rest, buf =>
    let trimmed := pyStrip line
    if isMdTableRow trimmed then linesGo rest (buf ++ [trimmed])
    else (flushMdTable buf ++ classifyLine trimmed) ++ linesGo rest []

/-- Elements contributed by one part of the HTML-table split. -/
def partElems (tok : String → List HtmlTok) (part : List Char) :
    List MdElement :=
  if isTablePart part then
    let st := tableFeed (tok (String.mk part))
    if st.rows.isEmpty then [] else [.table st.rows st.headerRowIndices]
  else linesGo (splitOnChar '\n' part) []

/-- `_parse_ocr_text`: parse one page's OCR text into structured
elements. -/
def _parse_ocr_text (tok : String → List HtmlTok) (text : String) :
    List MdElement :=
  (htmlSplit text.data).flatMap (partElems tok)

example (tok : String → List HtmlTok) :
    _parse_ocr_text tok "# Title\n\nSome **bold** text."
      = [.heading 1 "Title", .paragraph "Some **bold** text."] := rfl
example (tok : String → List HtmlTok) :
    _parse_ocr_text tok "| a | b |\n| --- | --- |\n| c | d |"
      = [.table [["a", "b"], ["c", "d"]] {0}] := rfl

/-! ## Document assembler (`_build_docx`) -/

/-- One page of an export request (`_ExportPage`). -/
structure ExportPage where
  num : ℤ
  text : String
deriving DecidableEq

/-- A docx run: text plus bold/italic flags. -/
structure Run where
  text : String
  bold : Bool
  italic : Bool
deriving DecidableEq

/-- First index (if any) at which the pattern occurs (case-sensitive). -/
def findSub (pat : List Char) : List Char → Option Nat
  | [] => if pat.isEmpty then some 0 else none
  | c :: cs =>
    if pat.isPrefixOf (c :: cs) then some 0
    else (findSub pat cs).map (· + 1)

/-- Try to match the delimiter alternation `\*\*.*?\*\*|\*.*?\*` at the head
of `l` (the first branch is tried first; each `.*?` is lazy, so the nearest
closing marker wins); returns `(match, rest)`. -/
def matchSpan (l : List Char) : Option (List Char × List Char) :=
  let single :=
    if ['*'].isPrefixOf l then
      match findSub ['*'] (l.drop 1) with
      | some k => some (l.take (k + 2), l.drop (k + 2))
      | none => none
    else none
  if ['*', '*'].isPrefixOf l then
    match findSub ['*', '*'] (l.drop 2) with
    | some k => some (l.take (k + 4), l.drop (k + 4))
    | none => single
  else single

/-- `re.split(r'(\*\*.*?\*\*|\*.*?\*)', text)`: the pieces between matches
(possibly empty) interleaved with the matched delimiters. -/
def spanGo : Nat → List Char → List Char → List (List Char)
  | 0, acc, l => [acc.reverse ++ l]
  | _ + 1, acc, [] => [acc.reverse]
  | fuel + 1, acc, c :: cs =>
    match matchSpan (c :: cs) with
    | some (m, rest) => acc.reverse :: m :: spanGo fuel [] rest
    | none => spanGo fuel (c :: acc) cs

def spanSplit (l : List Char) : List (List Char) := spanGo (l.length + 1) [] l

/-- The run classification of `_build_docx`'s paragraph branch: bold when
wrapped in `**`, italic when wrapped in `*` with overall length above two,
otherwise plain (empty pieces become empty plain runs, as
`para.add_run(p)` does). -/
def runOfPiece (p : List Char) : Run :=
  if ['*', '*'].isPrefixOf p && ['*', '*'].isSuffixOf p then
    { text := String.mk ((p.drop 2).take (p.length - 4)), bold := true,
      italic := false }
  else if ['*'].isPrefixOf p && ['*'].isSuffixOf p && decide (2 < p.length) then
    { text := String.mk ((p.drop 1).take (p.length - 2)), bold := false,
      italic := true }
  else { text := String.mk p, bold := false, italic := false }

/-- The span decomposition of one paragraph's text into runs. -/
def spanRuns (text : String) : List Run := (spanSplit text.data).map runOfPiece

example : spanRuns "Some **bold** text."
    = [{ text := "Some ", bold := false, italic := false },
       { text := "bold", bold := true, italic := false },
       { text := " text.", bold := false, italic := false }] := by decide
example : spanRuns "a *it* b"
    = [{ text := "a ", bold := false, italic := false },
       { text := "it", bold := false, italic := true },
       { text := " b", bold := false, italic := false }] := by decide

/-- One event of the assembled document body, in emission order. -/
inductive DocEvent where
  | heading (level : Nat) (text : String)
  | sectionBreak
  | paragraph (runs : List Run)
  | table (grid : List (List String)) (headerRows : Finset Nat)
deriving DecidableEq

/-- The docx events of one parsed element: a heading, a paragraph of runs,
or a grid table sized to the widest row (cells are only written at indices
below the column count; missing cells stay empty), with header-row cells
rendered bold via `headerRows`. -/
def elementEvents : MdElement → List DocEvent
  | .heading l t => [.heading l t]
  | .paragraph t => [.paragraph (spanRuns t)]
  | .table rows hdr =>
    if rows.isEmpty then []
    else
      let ncols := (rows.map List.length).foldl max 0
      [.table (rows.map (fun r => r ++ List.replicate (ncols - r.length) "")) hdr]

/-- The body events of one export page. -/
def pageEvts (tok : String → List HtmlTok) (p : ExportPage) : List DocEvent :=
  (_parse_ocr_text tok (pyOr p.text)).flatMap elementEvents

/-- The page loop of `_build_docx`: a section break before every page after
the first when more than one page is supplied, then the page's elements. -/
def pagesBody (tok : String → List HtmlTok) (multi : Bool) :
    Nat → List ExportPage → List DocEvent
  | _, [] => []
  | idx, p :: ps =>
    ((if multi && decide (0 < idx) then [DocEvent.sectionBreak] else [])
        ++ pageEvts tok p)
      ++ pagesBody tok multi (idx + 1) ps

/-- The assembled document model: the body events, and the per-section
footers (text and centered flag) that `_build_docx` sets after building the
body.  The document has `1 + number of section breaks` sections; when more
than one page is supplied that equals the page count and section `idx` gets
the footer `— pages[idx].num —`, centered; otherwise no footer is
touched. -/
structure DocxModel where
  body : List DocEvent
  footers : List (String × Bool)
deriving DecidableEq

/-- `_build_docx`: title heading (only when more than one page), the pages
with their section breaks, and the per-section footers. -/
def _build_docx (tok : String → List HtmlTok) (title : String)
    (pages : List ExportPage) : DocxModel :=
  let multi := decide (1 < pages.length)
  { body := (if multi then [DocEvent.heading 0 title] else [])
      ++ pagesBody tok multi 0 pages
    footers :=
      if multi then pages.map (fun p => ("— " ++ toString p.num ++ " —", true))
      else [] }

/-- An arbitrary instantiation of the external HTML tokenizer, used only to
state closed witnesses whose inputs contain no HTML table. -/
def trivialTokenizer : String → List HtmlTok := fun _ => []

example :
    _build_docx trivialTokenizer "T" [{ num := 1, text := "a" }, { num := 7, text := "b" }]
      = { body := [DocEvent.heading 0 "T",
                   DocEvent.paragraph [{ text := "a", bold := false, italic := false }],
                   DocEvent.sectionBreak,
                   DocEvent.paragraph [{ text := "b", bold := false, italic := false }]],
          footers := [("— 1 —", true), ("— 7 —", true)] } := by decide
example :
    _build_docx trivialTokenizer "T" [{ num := 5, text := "a" }]
      = { body := [DocEvent.paragraph [{ text := "a", bold := false, italic := false }]],
          footers := [] } := by decide

/-! ## Lemmas about the tall-image splitter -/

theorem splitGo_ne_nil (fuel h y : Nat) (hy : y < h)
    (hfuel : h ≤ y + 1520 * fuel) : splitGo fuel h y ≠ [] := by
  cases fuel with
  | zero => exact absurd hy (by omega)
  | succ fuel => simp [splitGo, hy]

theorem splitGo_cons (fuel h y : Nat) (hy : y < h) :
    splitGo (fuel + 1) h y
      = (y, min (y + 1600) h)
        :: (if min (y + 1600) h = h then [] else splitGo fuel h (y + 1520)) := by
  simp [splitGo, hy, MAX_IMAGE_HEIGHT, SEGMENT_OVERLAP]

theorem splitGo_get (fuel : Nat) : ∀ h y, h ≤ y + 1520 * fuel → y < h →
    ∀ i v, (splitGo fuel h y)[i]? = some v →
      v = (y + 1520 * i, min (y + 1520 * i + 1600) h) := by
  induction fuel with
  | zero => intro h y hfuel hy; exact absurd hy (by omega)
  | succ fuel ih =>
    intro h y hfuel hy i v hv
    rw [splitGo_cons fuel h y hy] at hv
    by_cases hb : min (y + 1600) h = h
    · rw [if_pos hb] at hv
      cases i with
      | zero => simp at hv; subst hv; simp [hb]
      | succ j => simp at hv
    · rw [if_neg hb] at hv
      cases i with
      | zero => simp at hv; subst hv; simp
      | succ j =>
        simp only [List.getElem?_cons_succ] at hv
        have := ih h (y + 1520) (by omega) (by omega) j v hv
        rw [this]
        simp only [Prod.mk.injEq]
        omega

theorem splitGo_cover (fuel : Nat) : ∀ h y p, h ≤ y + 1520 * fuel → y < h →
    y ≤ p → p < h →
    ∃ seg ∈ splitGo fuel h y, seg.1 ≤ p ∧ p < seg.2 := by
  induction fuel with
  | zero => intro h y p hfuel hy; exact absurd hy (by omega)
  | succ fuel ih =>
    intro h y p hfuel hy hp1 hp2
    rw [splitGo_cons fuel h y hy]
    by_cases hcov : p < min (y + 1600) h
    · exact ⟨(y, min (y + 1600) h), by simp, hp1, hcov⟩
    · have hb : min (y + 1600) h ≠ h := by omega
      rw [if_neg hb]
      obtain ⟨seg, hmem, h1, h2⟩ :=
        ih h (y + 1520) p (by omega) (by omega) (by omega) hp2
      exact ⟨seg, by simp [hmem], h1, h2⟩

theorem splitGo_last (fuel : Nat) : ∀ h y, h ≤ y + 1520 * fuel → y < h →
    ∀ i v, (splitGo fuel h y)[i]? = some v →
      (v.2 = h ↔ i = (splitGo fuel h y).length - 1) := by
  induction fuel with
  | zero => intro h y hfuel hy; exact absurd hy (by omega)
  | succ fuel ih =>
    intro h y hfuel hy i v hv
    rw [splitGo_cons fuel h y hy] at hv ⊢
    by_cases hb : min (y + 1600) h = h
    · rw [if_pos hb] at hv ⊢
      cases i with
      | zero => simp at hv; subst hv; simp [hb]
      | succ j => simp at hv
    · rw [if_neg hb] at hv ⊢
      have hlt : y + 1600 < h := by omega
      have hne := splitGo_ne_nil fuel h (y + 1520) (by omega) (by omega)
      have hlen : 0 < (splitGo fuel h (y + 1520)).length :=
        List.length_pos.mpr hne
      cases i with
      | zero =>
        simp only [List.getElem?_cons_zero, Option.some.injEq] at hv
        subst hv
        simp only [List.length_cons]
        constructor
        · intro hcontr; exact absurd hcontr (by omega)
        · intro hcontr; omega
      | succ j =>
        simp only [List.getElem?_cons_succ] at hv
        have := ih h (y + 1520) (by omega) (by omega) j v hv
        rw [this]
        have hj := List.getElem?_eq_some_iff.mp hv
        simp only [List.length_cons]
        omega

/-- C3: for every image of height `h` with `H = MAX_IMAGE_HEIGHT = 1600` and
`O = SEGMENT_OVERLAP = 80`: if `h ≤ H` the fallback path produces exactly
one segment identical to the whole input image; if `h > H` the segments are
windows of height `H` starting at `0, H−O, 2(H−O), …`, each clipped to `h`
at the bottom, their vertical ranges cover `[0, h)`, consecutive segments
overlap by exactly `O` pixels, and generation stops at the first window
reaching the bottom (only the last segment touches `h`). -/
theorem c3_fallback_split_spec (h : Nat) :
    (h ≤ MAX_IMAGE_HEIGHT → fallbackSegments h = [(0, h)]) ∧
    (MAX_IMAGE_HEIGHT < h →
      fallbackSegments h = _split_image h ∧
      (∀ i v, (_split_image h)[i]? = some v →
        v = (i * (MAX_IMAGE_HEIGHT - SEGMENT_OVERLAP),
             min (i * (MAX_IMAGE_HEIGHT - SEGMENT_OVERLAP) + MAX_IMAGE_HEIGHT) h)) ∧
      (∀ p, p < h → ∃ seg ∈ _split_image h, seg.1 ≤ p ∧ p < seg.2) ∧
      (∀ i u v, (_split_image h)[i]? = some u →
        (_split_image h)[i + 1]? = some v → v.1 + SEGMENT_OVERLAP = u.2) ∧
      (∀ i v, (_split_image h)[i]? = some v →
        (v.2 = h ↔ i = (_split_image h).length - 1))) := by
  constructor
  · intro hle
    rw [fallbackSegments, if_neg (by simp only [MAX_IMAGE_HEIGHT] at hle ⊢; omega)]
  · intro hgt
    simp only [MAX_IMAGE_HEIGHT] at hgt
    have hfuel : h ≤ 0 + 1520 * h := by omega
    have hy : 0 < h := by omega
    refine ⟨?_, ?_, ?_, ?_, ?_⟩
    · rw [fallbackSegments, if_pos (by simp only [MAX_IMAGE_HEIGHT]; omega)]
    · intro i v hv
      have := splitGo_get h h 0 hfuel hy i v hv
      simp only [MAX_IMAGE_HEIGHT, SEGMENT_OVERLAP]
      rw [this]
      simp only [Prod.mk.injEq]
      omega
    · intro p hp
      exact splitGo_cover h h 0 p hfuel hy (by omega) hp
    · intro i u v hu hv
      have hu' := splitGo_get h h 0 hfuel hy i u hu
      have hv' := splitGo_get h h 0 hfuel hy (i + 1) v hv
      have hlast := splitGo_last h h 0 hfuel hy i u hu
      have hlen : i + 1 < (_split_image h).length :=
        (List.getElem?_eq_some_iff.mp hv).1
      simp only [_split_image] at hlen
      have hne : u.2 ≠ h := by
        intro hh
        have := hlast.mp hh
        omega
      subst hu' hv'
      simp only [SEGMENT_OVERLAP] at *
      omega
    · intro i v hv
      exact splitGo_last h h 0 hfuel hy i v hv

/-- Witness for C3 at concrete heights 1000 (no split) and 2000 (split). -/
theorem c3_fallback_split_witness :
    fallbackSegments 1000 = [(0, 1000)] ∧
    (∀ p, p < 2000 → ∃ seg ∈ _split_image 2000, seg.1 ≤ p ∧ p < seg.2) :=
  ⟨(c3_fallback_split_spec 1000).1 (by norm_num [MAX_IMAGE_HEIGHT]),
   ((c3_fallback_split_spec 2000).2 (by norm_num [MAX_IMAGE_HEIGHT])).2.2.1⟩

/-! ## Lemmas about the markdown-table parser -/

/-- The claim's phrasing of the header-rule condition: every non-empty cell
of the row consists only of `-` and `:` characters. -/
def sepOnlyRow (r : List String) : Prop :=
  ∀ c ∈ r, c ≠ "" → ∀ ch ∈ c.data, ch = '-' ∨ ch = ':'

instance (r : List String) : Decidable (sepOnlyRow r) := by
  unfold sepOnlyRow; infer_instance

theorem mdRow_all_eq (r : List String) :
    (r.all (fun c => c == "" || isSepCell c)) = decide (sepOnlyRow r) := by
  rw [Bool.eq_iff_iff]
  simp only [List.all_eq_true, Bool.or_eq_true, beq_iff_eq, isSepCell,
    Bool.and_eq_true, Bool.not_eq_true', decide_eq_true_eq, sepOnlyRow]
  constructor
  · intro hall c hc hne ch hch
    rcases hall c hc with h | h
    · exact absurd h hne
    · simpa using h.2 ch hch
  · intro hprop c hc
    by_cases hce : c = ""
    · exact Or.inl hce
    · refine Or.inr ⟨?_, ?_⟩
      · have : c.data ≠ [] := fun hd => hce (by
          cases c; simp_all)
        simp [List.isEmpty_iff, this]
      · intro ch hch
        simpa using hprop c hc hce ch hch

/-- C6: `_parse_md_table` splits each buffered line on `|`, trims cells,
drops every row whose every non-empty cell consists only of `-` and `:`
(the header-rule row); a flushed run marks row index 0 as the sole header
row; and the 2-row, 2-column markdown table with one separator row yields a
table element with 2 rows and header indices `{0}`. -/
theorem c6_md_table_spec :
    (∀ lines : List (List Char),
      _parse_md_table lines
        = (lines.map mdRowCells).filter (fun r => decide (¬ sepOnlyRow r))) ∧
    (∀ buf : List (List Char),
      flushMdTable buf
        = if (_parse_md_table buf).isEmpty then []
          else [MdElement.table (_parse_md_table buf) {0}]) ∧
    (∀ tok : String → List HtmlTok,
      _parse_ocr_text tok "| a | b |\n| --- | --- |\n| c | d |"
        = [MdElement.table [["a", "b"], ["c", "d"]] {0}]) := by
  refine ⟨?_, ?_, fun tok => rfl⟩
  · intro lines
    induction lines with
    | nil => rfl
    | cons line rest ih =>
      simp only [_parse_md_table, List.map_cons, List.filter_cons]
      rw [mdRow_all_eq]
      by_cases hs : sepOnlyRow (mdRowCells line)
      · simp [hs, ih]
      · simp [hs, ih]
  · intro buf
    cases buf with
    | nil => rfl
    | cons b bs => simp [flushMdTable, _parse_md_table]

/-- C8: parsing `"# Title\n\nSome **bold** text."` yields exactly a level-1
heading `"Title"` followed by a paragraph whose span decomposition is
`[("Some ", plain), ("bold", bold), (" text.", plain)]` (bold iff wrapped in
`**`, italic iff wrapped in single `*` with total length above two,
plain otherwise — the branches of `runOfPiece`). -/
theorem c8_heading_bold_example :
    (∀ tok : String → List HtmlTok,
      _parse_ocr_text tok "# Title\n\nSome **bold** text."
        = [MdElement.heading 1 "Title",
           MdElement.paragraph "Some **bold** text."]) ∧
    spanRuns "Some **bold** text."
      = [{ text := "Some ", bold := false, italic := false },
         { text := "bold", bold := true, italic := false },
         { text := " text.", bold := false, italic := false }] :=
  ⟨fun _ => rfl, by decide⟩

/-! ## Lemmas about the region selector -/

theorem insSorted_perm (le : α → α → Bool) (x : α) (l : List α) :
    (insSorted le x l).Perm (x :: l) := by
  induction l with
  | nil => exact List.Perm.refl _
  | cons y ys ih =>
    unfold insSorted
    by_cases h : le x y = true
    · rw [if_pos h]
    · rw [if_neg h]
      exact (ih.cons y).trans (List.Perm.swap x y ys)

theorem insSort_perm (le : α → α → Bool) (l : List α) :
    (insSort le l).Perm l := by
  induction l with
  | nil => exact List.Perm.refl _
  | cons x xs ih => exact (insSorted_perm le x (insSort le xs)).trans (ih.cons x)

theorem insSorted_pairwise (le : α → α → Bool)
    (htot : ∀ a b, le a b = true ∨ le b a = true)
    (htrans : ∀ a b c, le a b = true → le b c = true → le a c = true)
    (x : α) (l : List α) (hl : l.Pairwise (fun a b => le a b = true)) :
    (insSorted le x l).Pairwise (fun a b => le a b = true) := by
  induction l with
  | nil => simp [insSorted]
  | cons y ys ih =>
    unfold insSorted
    by_cases h : le x y = true
    · rw [if_pos h]
      refine List.Pairwise.cons ?_ hl
      intro z hz
      rcases List.mem_cons.mp hz with rfl | hz'
      · exact h
      · exact htrans x y z h ((List.pairwise_cons.mp hl).1 z hz')
    · rw [if_neg h]
      have hyx : le y x = true := (htot x y).resolve_left h
      refine List.Pairwise.cons ?_ (ih (List.pairwise_cons.mp hl).2)
      intro z hz
      have hz2 : z ∈ x :: ys := (insSorted_perm le x ys).mem_iff.mp hz
      rcases List.mem_cons.mp hz2 with rfl | hz'
      · exact hyx
      · exact (List.pairwise_cons.mp hl).1 z hz'

theorem insSort_pairwise (le : α → α → Bool)
    (htot : ∀ a b, le a b = true ∨ le b a = true)
    (htrans : ∀ a b c, le a b = true → le b c = true → le a c = true)
    (l : List α) : (insSort le l).Pairwise (fun a b => le a b = true) := by
  induction l with
  | nil => simp [insSort]
  | cons x xs ih => exact insSorted_pairwise le htot htrans x _ ih

/-- The claim's notion of a surviving detection: its label is not in the
skip-set and its score is not below the threshold. -/
def survives (d : RawDet) : Prop :=
  d.label ∉ _LAYOUT_SKIP_LABELS ∧ ¬ d.score < 1 / 2

instance (d : RawDet) : Decidable (survives d) := by
  unfold survives; infer_instance

/-- The claim's reading order on selected regions: ascending `y1`, ties
broken by ascending `x1`. -/
def readingOrder (a b : Region) : Prop :=
  a.bbox.2.1 < b.bbox.2.1 ∨ (a.bbox.2.1 = b.bbox.2.1 ∧ a.bbox.1 ≤ b.bbox.1)

theorem detect_filter_eq (dets : List RawDet) :
    (dets.filter (fun d => !decide (d.score < 1 / 2))).filterMap
      (fun d =>
        if d.label ∈ _LAYOUT_SKIP_LABELS then none else some (roundedRegion d))
    = (dets.filter (fun d => decide (survives d))).map roundedRegion := by
  induction dets with
  | nil => rfl
  | cons d ds ih =>
    by_cases h1 : d.score < 1 / 2
    · have e1 : (!decide (d.score < 1 / 2)) = false := by
        rw [decide_eq_true h1]; rfl
      have e2 : decide (survives d) = false :=
        decide_eq_false (fun hs => hs.2 h1)
      rw [List.filter_cons, List.filter_cons, e1, e2]
      simpa using ih
    · have e1 : (!decide (d.score < 1 / 2)) = true := by
        rw [decide_eq_false h1]; rfl
      by_cases h2 : d.label ∈ _LAYOUT_SKIP_LABELS
      · have e2 : decide (survives d) = false :=
          decide_eq_false (fun hs => hs.1 h2)
        rw [List.filter_cons, List.filter_cons, e1, e2]
        simp only [if_true, Bool.false_eq_true, if_false, List.filterMap_cons,
          if_pos h2]
        exact ih
      · have e2 : decide (survives d) = true := decide_eq_true ⟨h2, h1⟩
        rw [List.filter_cons, List.filter_cons, e1, e2]
        simp only [if_true, List.filterMap_cons, if_neg h2, List.map_cons]
        rw [ih]

/-- C7: `detect_layout` keeps exactly the detections whose label is outside
the skip-set and whose score is not below the `0.5` threshold (the
threshold filter itself is performed by the external
`post_process_object_detection`, modelled from the spec), rounds each
bounding-box coordinate to the nearest integer pixel (`roundedRegion`,
Python `round`), and returns the survivors sorted by ascending `y1`, ties
broken by ascending `x1`. -/
theorem c7_detect_layout_spec (dets : List RawDet) :
    (detect_layout dets).Perm
      ((dets.filter (fun d => decide (survives d))).map roundedRegion) ∧
    List.Pairwise readingOrder (detect_layout dets) ∧
    ∀ r ∈ detect_layout dets, r.label ∉ _LAYOUT_SKIP_LABELS := by
  have htot : ∀ a b : Region, regionLE a b = true ∨ regionLE b a = true := by
    intro a b
    simp only [regionLE, decide_eq_true_eq]
    omega
  have htrans : ∀ a b c : Region, regionLE a b = true → regionLE b c = true →
      regionLE a c = true := by
    intro a b c
    simp only [regionLE, decide_eq_true_eq]
    omega
  have hperm : (detect_layout dets).Perm
      ((dets.filter (fun d => decide (survives d))).map roundedRegion) := by
    simp only [detect_layout]
    refine (insSort_perm regionLE _).trans ?_
    rw [detect_filter_eq]
  refine ⟨hperm, ?_, ?_⟩
  · have hp := insSort_pairwise regionLE htot htrans
      ((dets.filter (fun d => !decide (d.score < 1 / 2))).filterMap
        (fun d =>
          if d.label ∈ _LAYOUT_SKIP_LABELS then none
          else some (roundedRegion d)))
    simp only [detect_layout]
    exact hp.imp (fun h => by
      simpa only [regionLE, decide_eq_true_eq, readingOrder] using h)
  · intro r hr
    have hr2 : r ∈ (dets.filter (fun d => decide (survives d))).map roundedRegion :=
      hperm.mem_iff.mp hr
    obtain ⟨d, hd, rfl⟩ := List.mem_map.mp hr2
    have := List.of_mem_filter hd
    simp only [decide_eq_true_eq, survives] at this
    exact this.1

/-! ## Lemmas about the text normalizer -/

theorem mem_of_isPrefixOf {p l : List Char} (h : p.isPrefixOf l = true) {a : Char}
    (ha : a ∈ p) : a ∈ l :=
  (List.isPrefixOf_iff_prefix.mp h).subset ha

theorem pyStripP_eq_rdrop (p : Char → Bool) (l : List Char) :
    pyStripP p l = List.rdropWhile p (l.dropWhile p) := by
  simp [pyStripP, List.rdropWhile]

theorem pyStripP_subset {p : Char → Bool} {l : List Char} {a : Char}
    (h : a ∈ pyStripP p l) : a ∈ l := by
  rw [pyStripP_eq_rdrop] at h
  exact (List.dropWhile_suffix p).subset ((List.rdropWhile_prefix p _).subset h)

theorem dropWhile_eq_self_of_prefix {α : Type} (p : α → Bool) {P X : List α}
    (hpre : P <+: X) (hX : X.dropWhile p = X) : P.dropWhile p = P := by
  obtain ⟨t, rfl⟩ := hpre
  cases P with
  | nil => rfl
  | cons c cs =>
    rw [List.dropWhile_eq_self_iff] at hX ⊢
    intro h0
    simpa using hX (by simp)

theorem pyStripP_idem (p : Char → Bool) (l : List Char) :
    pyStripP p (pyStripP p l) = pyStripP p l := by
  rw [pyStripP_eq_rdrop, pyStripP_eq_rdrop]
  have h1 : (l.dropWhile p).dropWhile p = l.dropWhile p :=
    List.dropWhile_idempotent p l
  have h2 : (List.rdropWhile p (l.dropWhile p)).dropWhile p
      = List.rdropWhile p (l.dropWhile p) :=
    dropWhile_eq_self_of_prefix p (List.rdropWhile_prefix p _) h1
  rw [h2]
  exact List.rdropWhile_idempotent p _

theorem pyStrip_subset {l : List Char} {a : Char} (h : a ∈ pyStrip l) : a ∈ l :=
  pyStripP_subset h

theorem pyStrip_idem (l : List Char) : pyStrip (pyStrip l) = pyStrip l :=
  pyStripP_idem isPySpace l

theorem stripLeadingFence_of_no_tick {l : List Char} (h : '`' ∉ l) :
    stripLeadingFence l = l := by
  have hc : ¬ (['`', '`', '`'].isPrefixOf l = true) :=
    fun hp => h (mem_of_isPrefixOf hp (by simp))
  simp only [stripLeadingFence]
  rw [if_neg hc]

theorem stripTrailingFence_of_no_tick {l : List Char} (h : '`' ∉ l) :
    stripTrailingFence l = l := by
  have hrev : '`' ∉ l.reverse := by simpa using h
  have hc1 : ¬ (['`', '`', '`'].isPrefixOf l.reverse = true) :=
    fun hp => hrev (mem_of_isPrefixOf hp (by simp))
  have hc2 : ¬ (['\n', '`', '`', '`'].isPrefixOf l.reverse = true) :=
    fun hp => hrev (mem_of_isPrefixOf hp (by simp))
  simp only [stripTrailingFence]
  rw [if_neg hc1, if_neg hc2]

theorem circledGo_clean : ∀ (fuel : Nat) (l : List Char), '$' ∉ l →
    circledGo fuel l = l := by
  intro fuel
  induction fuel with
  | zero => intro l _; rfl
  | succ fuel ih =>
    intro l hl
    cases l with
    | nil => rfl
    | cons c cs =>
      have hm : matchCircled (c :: cs) = none := by
        have hc : ¬ (circledPat.isPrefixOf (c :: cs) = true) :=
          fun hp => hl (mem_of_isPrefixOf hp (by simp [circledPat]))
        simp only [matchCircled]
        rw [if_neg hc]
      simp only [circledGo, hm]
      rw [ih cs (fun hx => hl (List.mem_cons_of_mem c hx))]

theorem fracGo_clean (fracs : List (String × String)) :
    ∀ (fuel : Nat) (l : List Char), '$' ∉ l → fracGo fracs fuel l = l := by
  intro fuel
  induction fuel with
  | zero => intro l _; rfl
  | succ fuel ih =>
    intro l hl
    cases l with
    | nil => rfl
    | cons c cs =>
      have hm : matchFrac (c :: cs) = none := by
        have hc : ¬ (fracPat.isPrefixOf (c :: cs) = true) :=
          fun hp => hl (mem_of_isPrefixOf hp (by simp [fracPat]))
        simp only [matchFrac]
        rw [if_neg hc]
      simp only [fracGo, hm]
      rw [ih cs (fun hx => hl (List.mem_cons_of_mem c hx))]

theorem bareMathGo_clean : ∀ (fuel : Nat) (l : List Char), '$' ∉ l →
    bareMathGo fuel l = l := by
  intro fuel
  induction fuel with
  | zero => intro l _; rfl
  | succ fuel ih =>
    intro l hl
    cases l with
    | nil => rfl
    | cons c cs =>
      have hm : matchBareMath (c :: cs) = none := by
        have hc : ¬ (['$', '\\'].isPrefixOf (c :: cs) = true) :=
          fun hp => hl (mem_of_isPrefixOf hp (by simp))
        simp only [matchBareMath]
        rw [if_neg hc]
      simp only [bareMathGo, hm]
      rw [ih cs (fun hx => hl (List.mem_cons_of_mem c hx))]

theorem replGo_clean {a : Char} (pat rep : List Char) (hpat : a ∈ pat) :
    ∀ (fuel : Nat) (l : List Char), a ∉ l → replGo pat rep fuel l = l := by
  intro fuel
  induction fuel with
  | zero => intro l _; rfl
  | succ fuel ih =>
    intro l hl
    cases l with
    | nil => rfl
    | cons c cs =>
      have hc : (!pat.isEmpty && pat.isPrefixOf (c :: cs)) = false := by
        cases hp : pat.isPrefixOf (c :: cs) with
        | false => simp
        | true => exact absurd (mem_of_isPrefixOf hp hpat) hl
      simp only [replGo, hc, Bool.false_eq_true, if_false]
      rw [ih cs (fun hx => hl (List.mem_cons_of_mem c hx))]

theorem simpleSub_clean (simple : List (String × String)) (l : List Char)
    (hl : '$' ∉ l) : simpleSub simple l = l := by
  induction simple generalizing l with
  | nil => rfl
  | cons pr prs ih =>
    simp only [simpleSub, List.foldl_cons]
    rw [show pyReplace ('$' :: pr.1.data ++ ['$']) pr.2.data l = l from
      replGo_clean _ _ (by simp) _ l hl]
    exact ih l hl

theorem latex_clean (tbl : LatexTables) (l : List Char) (hl : '$' ∉ l) :
    _latex_to_unicode tbl l = l := by
  unfold _latex_to_unicode circledSub fracSub bareMathSub
  rw [circledGo_clean _ l hl, fracGo_clean _ _ l hl, simpleSub_clean _ l hl,
    bareMathGo_clean _ l hl]

theorem postprocess_clean (tbl : LatexTables) (s : String)
    (hclean : ∀ c ∈ s.data, c ≠ '`' ∧ c ≠ '$') :
    _postprocess tbl s = String.mk (pyStrip s.data) := by
  have hsub : ∀ c ∈ pyStrip s.data, c ≠ '`' ∧ c ≠ '$' :=
    fun c hc => hclean c (pyStrip_subset hc)
  have h1 : stripLeadingFence (pyStrip s.data) = pyStrip s.data :=
    stripLeadingFence_of_no_tick (fun hx => (hsub '`' hx).1 rfl)
  simp only [_postprocess]
  rw [h1, pyStrip_idem]
  rw [stripTrailingFence_of_no_tick (fun hx => (hsub '`' hx).1 rfl)]
  rw [latex_clean tbl _ (fun hx => (hsub '$' hx).2 rfl)]
  rw [pyStrip_idem]

/-- C2 counterexample: `normalize` is not idempotent.  Stripping one leading
code fence can expose a second fence: `normalize("```\n```x") = "```x"`,
which a second run strips to `""`. -/
theorem c2_normalize_not_idempotent :
    _postprocess specTables "```\n```x" = "```x" ∧
    _postprocess specTables (_postprocess specTables "```\n```x") = "" ∧
    _postprocess specTables (_postprocess specTables "```\n```x")
      ≠ _postprocess specTables "```\n```x" :=
  ⟨by decide, by decide, by decide⟩

/-- C2 (amended): the normalizer is idempotent on every input containing no
backtick and no dollar sign — on such input it reduces to whitespace
trimming, which is idempotent.  (On general input idempotence fails, see
the counterexample: fence stripping can expose a new fence, and unwrapping
`$\cmd$` can expose a new math token.) -/
theorem c2_idempotent_on_plain_text (tbl : LatexTables) (x : String)
    (hclean : ∀ c ∈ x.data, c ≠ '`' ∧ c ≠ '$') :
    _postprocess tbl (_postprocess tbl x) = _postprocess tbl x := by
  have h1 := postprocess_clean tbl x hclean
  have hclean2 : ∀ c ∈ (String.mk (pyStrip x.data)).data, c ≠ '`' ∧ c ≠ '$' :=
    fun c hc => hclean c (pyStrip_subset hc)
  rw [h1, postprocess_clean tbl _ hclean2]
  show String.mk (pyStrip (pyStrip x.data)) = String.mk (pyStrip x.data)
  rw [pyStrip_idem]

/-- Witness for the amended C2 at a concrete fence-free, math-free input. -/
theorem c2_idempotent_witness :
    (∀ c ∈ ("  a b  " : String).data, c ≠ '`' ∧ c ≠ '$') ∧
    _postprocess specTables (_postprocess specTables "  a b  ")
      = _postprocess specTables "  a b  " :=
  ⟨by decide, c2_idempotent_on_plain_text specTables "  a b  " (by decide)⟩

/-! ## Lemmas about the fraction substitution -/

theorem digit_not_rbrace {c : Char} (h : c.isDigit = true) :
    (!(c == '}')) = true := by
  cases hb : (c == '}') with
  | false => rfl
  | true =>
    have : c = '}' := beq_iff_eq.mp hb
    subst this
    exact absurd h (by decide)

theorem fracGo_nil (fracs : List (String × String)) (fuel : Nat) :
    fracGo fracs fuel [] = [] := by
  cases fuel <;> rfl

/-- C9: a fraction token `$\frac{a}{b}$` (with non-empty digit-string
arguments) is replaced by the glyph registered for the literal key `"a/b"`
when one exists, and by the literal text `a/b` otherwise; in particular,
with `specTables` (where `"1/2" ↦ ½` and `"3/7"` is unmapped),
normalization sends the first token to `½` and the second to the literal
`3/7`. -/
theorem c9_frac_replacement (fracs : List (String × String)) (a b : List Char)
    (ha : a ≠ []) (hb : b ≠ []) (hda : ∀ c ∈ a, c.isDigit)
    (hdb : ∀ c ∈ b, c.isDigit) :
    fracSub fracs (fracPat ++ (a ++ ('}' :: '{' :: (b ++ ['}', '$']))))
      = ((fracs.lookup (String.mk (a ++ '/' :: b))).map String.data).getD
          (a ++ '/' :: b) ∧
    _postprocess specTables
        "$\\frac\x7b1\x7d\x7b2\x7d$ and $\\frac\x7b3\x7d\x7b7\x7d$"
      = "½ and 3/7" := by
  refine ⟨?_, by decide⟩
  have hpa : ∀ c ∈ a, (!(c == '}')) = true := fun c hc => digit_not_rbrace (hda c hc)
  have hpb : ∀ c ∈ b, (!(c == '}')) = true := fun c hc => digit_not_rbrace (hdb c hc)
  have hane : a.isEmpty = false := by
    cases a with
    | nil => exact absurd rfl ha
    | cons x xs => rfl
  have hbne : b.isEmpty = false := by
    cases b with
    | nil => exact absurd rfl hb
    | cons x xs => rfl
  have htake1 : (a ++ ('}' :: '{' :: (b ++ ['}', '$']))).takeWhile
      (fun c => !(c == '}')) = a := by
    rw [List.takeWhile_append_of_pos hpa]
    simp
  have hdrop1 : (a ++ ('}' :: '{' :: (b ++ ['}', '$']))).dropWhile
      (fun c => !(c == '}')) = '}' :: '{' :: (b ++ ['}', '$']) := by
    rw [List.dropWhile_append_of_pos hpa]
    simp
  have htake2 : (b ++ ['}', '$']).takeWhile (fun c => !(c == '}')) = b := by
    rw [List.takeWhile_append_of_pos hpb]
    simp
  have hdrop2 : (b ++ ['}', '$']).dropWhile (fun c => !(c == '}')) = ['}', '$'] := by
    rw [List.dropWhile_append_of_pos hpb]
    simp
  have hmatch : matchFrac (fracPat ++ (a ++ ('}' :: '{' :: (b ++ ['}', '$']))))
      = some (a, b, []) := by
    have hpre : fracPat.isPrefixOf
        (fracPat ++ (a ++ ('}' :: '{' :: (b ++ ['}', '$'])))) = true := by
      rw [List.isPrefixOf_iff_prefix]
      exact List.prefix_append _ _
    have hdrop : (fracPat ++ (a ++ ('}' :: '{' :: (b ++ ['}', '$'])))).drop 7
        = a ++ ('}' :: '{' :: (b ++ ['}', '$'])) := by
      have h7 : fracPat.length = 7 := rfl
      rw [← h7]
      exact List.drop_left fracPat _
    simp only [matchFrac]
    rw [if_pos hpre, hdrop, htake1, hdrop1, hane]
    simp only [Bool.false_eq_true, if_false]
    rw [htake2, hdrop2, hbne]
    simp only [Bool.false_eq_true, if_false]
  have hcons : ∃ c cs, fracPat ++ (a ++ ('}' :: '{' :: (b ++ ['}', '$'])))
      = c :: cs := ⟨'$', _, rfl⟩
  obtain ⟨c, cs, hccs⟩ := hcons
  have hlen : (fracPat ++ (a ++ ('}' :: '{' :: (b ++ ['}', '$'])))).length
      = cs.length + 1 := by rw [hccs]; rfl
  rw [fracSub, hlen, hccs]
  rw [show fracGo fracs (cs.length + 1) (c :: cs)
      = match matchFrac (c :: cs) with
        | some (num, den, r3) =>
          fracReplacement fracs num den ++ fracGo fracs cs.length r3
        | none => c :: fracGo fracs cs.length cs from rfl]
  rw [← hccs, hmatch]
  simp only [fracGo_nil, List.append_nil]
  cases hl : fracs.lookup (String.mk (a ++ '/' :: b)) <;>
    simp [fracReplacement, hl]

/-- Witness for C9 at `a = "1"`, `b = "2"` over the spec-modelled tables. -/
theorem c9_frac_witness :
    (['1'] ≠ ([] : List Char) ∧ ∀ c ∈ ['1', '2'], c.isDigit) ∧
    fracSub specTables.fractions
        (fracPat ++ (['1'] ++ ('}' :: '{' :: (['2'] ++ ['}', '$']))))
      = ((specTables.fractions.lookup
          (String.mk (['1'] ++ '/' :: ['2']))).map String.data).getD
          (['1'] ++ '/' :: ['2']) :=
  ⟨⟨by decide, by decide⟩,
   (c9_frac_replacement specTables.fractions ['1'] ['2'] (by decide) (by decide)
     (by decide) (by decide)).1⟩

/-! ## Lemmas about the per-region OCR loop -/

theorem regionsLoop_ok (tbl : LatexTables) (ocr : Box → Except String String)
    (raw : List Region) :
    ∀ i, (∀ r ∈ raw, ∃ s, ocr r.bbox = .ok s) →
    ∃ regs, regionsLoop tbl ocr i raw = .ok regs ∧
      regs.length = raw.length ∧
      (∀ j v, regs[j]? = some v → ∃ r, raw[j]? = some r ∧
        v.idx = i + j ∧ v.label = r.label ∧ v.bbox = r.bbox) := by
  induction raw with
  | nil =>
    intro i _
    exact ⟨[], rfl, rfl, by intro j v hv; simp at hv⟩
  | cons r rs ih =>
    intro i hok
    obtain ⟨s, hs⟩ := hok r (List.mem_cons_self r rs)
    obtain ⟨regs, hr, hlen, hget⟩ :=
      ih (i + 1) (fun r' hr' => hok r' (List.mem_cons_of_mem r hr'))
    refine ⟨{ idx := i, label := r.label, bbox := r.bbox,
              text := pyOr (_postprocess tbl s) } :: regs, ?_, ?_, ?_⟩
    · simp only [regionsLoop, hs, hr]
    · simp [hlen]
    · intro j v hv
      cases j with
      | zero =>
        simp only [List.getElem?_cons_zero, Option.some.injEq] at hv
        subst hv
        exact ⟨r, by simp⟩
      | succ k =>
        simp only [List.getElem?_cons_succ] at hv
        obtain ⟨r', hr', hidx, hlab, hbox⟩ := hget k v hv
        exact ⟨r', by simpa using hr', by omega, hlab, hbox⟩

/-- The claim's description of `combined_text`: join the unit texts in
order, with one blank line between consecutive non-empty units, skipping
empty units. -/
def specJoin : List String → String
  | [] => ""
  | t :: ts =>
    let rest := specJoin ts
    if t = "" then rest
    else if rest = "" then t else t ++ "\n\n" ++ rest

theorem specJoin_empty_of_filter (ts : List String)
    (h : ts.filter (fun s => !(s == "")) = []) : specJoin ts = "" := by
  induction ts with
  | nil => rfl
  | cons t ts ih =>
    rw [List.filter_cons] at h
    by_cases ht : t = ""
    · subst ht
      simp only [beq_self_eq_true, Bool.not_true, Bool.false_eq_true,
        if_false] at h
      simp [specJoin, ih h]
    · rw [if_pos (by simp [ht])] at h
      exact absurd h (by simp)

theorem specJoin_ne_empty (ts : List String) (u : String) (us : List String)
    (h : ts.filter (fun s => !(s == "")) = u :: us) : specJoin ts ≠ "" := by
  induction ts generalizing u us with
  | nil => simp at h
  | cons t ts ih =>
    rw [List.filter_cons] at h
    by_cases ht : t = ""
    · subst ht
      simp only [beq_self_eq_true, Bool.not_true, Bool.false_eq_true,
        if_false] at h
      simpa [specJoin] using ih u us h
    · simp only [specJoin]
      rw [if_neg ht]
      by_cases hrest : specJoin ts = ""
      · rw [if_pos hrest]
        exact ht
      · rw [if_neg hrest]
        intro hcontr
        have := congrArg String.length hcontr
        simp [String.length_append] at this
        exact absurd this.1.2 (by decide)

theorem pyJoin_filter_eq_specJoin (ts : List String) :
    pyJoin "\n\n" (ts.filter (fun s => !(s == ""))) = specJoin ts := by
  induction ts with
  | nil => rfl
  | cons t ts ih =>
    rw [List.filter_cons]
    by_cases ht : t = ""
    · subst ht
      simp only [beq_self_eq_true, Bool.not_true, Bool.false_eq_true, if_false]
      rw [ih]
      simp [specJoin]
    · rw [if_pos (by simp [ht])]
      cases hf : ts.filter (fun s => !(s == "")) with
      | nil =>
        rw [hf] at ih
        simp only [pyJoin, specJoin]
        rw [if_neg ht, specJoin_empty_of_filter ts hf, if_pos rfl]
      | cons u us =>
        rw [hf] at ih
        simp only [pyJoin, specJoin]
        rw [if_neg ht, if_neg (specJoin_ne_empty ts u us hf), ih]

/-- C4: when the selector yields `n ≥ 1` regions and every per-region OCR
dispatch succeeds, `ocr_image_with_layout` returns a regions list of length
exactly `n` in the selector's order (entry `j` carries `idx = j` and the
`j`-th selected region's label and bbox — an empty-text region is still
present, since the length and order hold for every oracle, including one
whose post-processed text is empty), and `combined_text` is the non-empty
region texts joined in order with one blank line between consecutive
non-empty units (`specJoin`). -/
theorem c4_regions_spec (tbl : LatexTables) (w h : Nat) (raw : List Region)
    (ocr : Box → Except String String) (hne : raw ≠ [])
    (hok : ∀ r ∈ raw, ∃ s, ocr r.bbox = .ok s) :
    ∃ (combined : String) (regs : List OcrRegion),
      ocr_image_with_layout tbl w h raw ocr = .ok (combined, regs) ∧
      regs.length = raw.length ∧
      (∀ (j : Nat) (v : OcrRegion), regs[j]? = some v →
        ∃ r : Region, raw[j]? = some r ∧
          v.idx = j ∧ v.label = r.label ∧ v.bbox = r.bbox) ∧
      combined = specJoin (regs.map (·.text)) := by
  obtain ⟨regs, hloop, hlen, hget⟩ := regionsLoop_ok tbl ocr raw 0 hok
  have hemp : raw.isEmpty = false := by
    cases raw with
    | nil => exact absurd rfl hne
    | cons x xs => rfl
  refine ⟨pyJoin "\n\n" ((regs.map (·.text)).filter (fun s => !(s == ""))),
    regs, ?_, hlen, ?_, ?_⟩
  · simp only [ocr_image_with_layout, hemp, Bool.false_eq_true, if_false, hloop]
  · intro j v hv
    obtain ⟨r, hr, hidx, hlab, hbox⟩ := hget j v hv
    exact ⟨r, hr, by omega, hlab, hbox⟩
  · exact pyJoin_filter_eq_specJoin _

/-- Witness for C4 with two concrete regions and an all-succeeding oracle. -/
theorem c4_regions_witness :
    ∃ (combined : String) (regs : List OcrRegion),
      ocr_image_with_layout specTables 100 200
          [{ label := "text", bbox := (0, 0, 10, 10), score := 1 },
           { label := "title", bbox := (0, 20, 10, 30), score := 1 }]
          (fun _ => Except.ok "t")
        = .ok (combined, regs) ∧
      regs.length
        = ([{ label := "text", bbox := (0, 0, 10, 10), score := 1 },
            { label := "title", bbox := (0, 20, 10, 30), score := 1 }] :
            List Region).length ∧
      (∀ (j : Nat) (v : OcrRegion), regs[j]? = some v →
        ∃ r : Region,
          ([{ label := "text", bbox := (0, 0, 10, 10), score := 1 },
            { label := "title", bbox := (0, 20, 10, 30), score := 1 }] :
            List Region)[j]? = some r ∧
          v.idx = j ∧ v.label = r.label ∧ v.bbox = r.bbox) ∧
      combined = specJoin (regs.map (·.text)) :=
  c4_regions_spec specTables 100 200 _ _ (by simp) (fun r _ => ⟨"t", rfl⟩)

/-! ## Lemmas about the OCR endpoints -/

theorem ocr_single_page_error (tbl : LatexTables) (clock : Nat)
    (pages : List Page) (pn : ℤ) (layout : Bool) (imgExists : String → Bool)
    (dims : String → Nat × Nat) (detect : String → List Region)
    (ocr : Box → Except String String) (e : String) (page : Page)
    (hfind : pages.find? (fun p => p.num == pn) = some page)
    (hnc : page.ocr_text = none)
    (himg : imgExists page.filename = true)
    (herr : runPageOcr tbl layout page dims detect ocr = .error e) :
    ocr_single_page tbl clock pages pn layout imgExists dims detect ocr
      = (.httpError 500 ("OCR failed: " ++ e), pages) := by
  simp only [ocr_single_page, hfind, hnc, himg, if_true, herr]

/-- C10: if OCR of a single page raises, `ocr_single_page` fails with HTTP
500 and the stored page state is unchanged (the snd of the result is the
original `pages`, so `ocr_text`/`ocr_regions`/`ocr_time` keep whatever they
were — here `None`), hence the failed page is never served as cached and a
subsequent identical request re-runs OCR and fails identically. -/
theorem c10_single_page_error_spec (tbl : LatexTables) (clock : Nat)
    (pages : List Page) (pn : ℤ) (layout : Bool) (imgExists : String → Bool)
    (dims : String → Nat × Nat) (detect : String → List Region)
    (ocr : Box → Except String String) (e : String) (page : Page)
    (hfind : pages.find? (fun p => p.num == pn) = some page)
    (hnc : page.ocr_text = none)
    (himg : imgExists page.filename = true)
    (herr : runPageOcr tbl layout page dims detect ocr = .error e) :
    ocr_single_page tbl clock pages pn layout imgExists dims detect ocr
      = (.httpError 500 ("OCR failed: " ++ e), pages) ∧
    ocr_single_page tbl clock
        (ocr_single_page tbl clock pages pn layout imgExists dims detect ocr).2
        pn layout imgExists dims detect ocr
      = (.httpError 500 ("OCR failed: " ++ e), pages) := by
  have h := ocr_single_page_error tbl clock pages pn layout imgExists dims
    detect ocr e page hfind hnc himg herr
  refine ⟨h, ?_⟩
  rw [h]
  exact h

/-- The concrete scenario for C1/C10: one un-OCR'd page whose second
detected region makes the engine raise, while the first region succeeds. -/
def scenePages : List Page :=
  [{ num := 1, filename := "f", ocr_text := none, ocr_regions := none,
     ocr_time := none }]

def sceneDims : String → Nat × Nat := fun _ => (100, 200)

def sceneDetect : String → List Region := fun _ =>
  [{ label := "text", bbox := (0, 0, 10, 10), score := 1 },
   { label := "text", bbox := (0, 20, 10, 30), score := 1 }]

def sceneOcr : Box → Except String String := fun b =>
  if b = (0, 0, 10, 10) then .ok "one" else .error "boom"

/-- Witness for C10 at the concrete scenario. -/
theorem c10_single_page_error_witness :
    ocr_single_page specTables 7 scenePages 1 true (fun _ => true) sceneDims
        sceneDetect sceneOcr
      = (.httpError 500 ("OCR failed: " ++ "boom"), scenePages) ∧
    ocr_single_page specTables 7
        (ocr_single_page specTables 7 scenePages 1 true (fun _ => true)
          sceneDims sceneDetect sceneOcr).2
        1 true (fun _ => true) sceneDims sceneDetect sceneOcr
      = (.httpError 500 ("OCR failed: " ++ "boom"), scenePages) :=
  c10_single_page_error_spec specTables 7 scenePages 1 true (fun _ => true)
    sceneDims sceneDetect sceneOcr "boom"
    { num := 1, filename := "f", ocr_text := none, ocr_regions := none,
      ocr_time := none }
    (by decide) rfl rfl rfl

theorem ocr_all_pages_eq_map (tbl : LatexTables) (clock : Nat) (layout : Bool)
    (dims : String → Nat × Nat) (detect : String → List Region)
    (ocr : Box → Except String String) (pages : List Page) :
    ocr_all_pages tbl clock pages layout dims detect ocr
      = (pages.map (fun p => (pageStep tbl clock layout dims detect ocr p).1),
         pages.map (fun p => (pageStep tbl clock layout dims detect ocr p).2)) := by
  induction pages with
  | nil => rfl
  | cons p ps ih => simp only [ocr_all_pages, ih, List.map_cons]

/-- C1 counterexample: in `ocr_all_pages`, a failing OCR dispatch for one
region is caught per *page*, not per region.  In the concrete scenario the
first region's dispatch succeeds (`"one"`), the second raises, yet the
page's result entry has `regions = []` (the successful region is discarded,
so the page *is* aborted) and `text = None` rather than an empty-text unit
— contradicting "that region/chunk is recorded as an empty-text, errored
unit and the page's other regions are retained". -/
theorem c1_claim_counterexample :
    sceneOcr (0, 0, 10, 10) = .ok "one" ∧
    (ocr_all_pages specTables 7 scenePages true sceneDims sceneDetect
        sceneOcr).1
      = [{ page_num := 1, text := none, regions := [], time := none,
           cached := none, error := some "boom" }] ∧
    ∀ entry ∈ (ocr_all_pages specTables 7 scenePages true sceneDims
        sceneDetect sceneOcr).1,
      entry.regions = [] ∧ entry.text ≠ some "" :=
  ⟨rfl, by decide, by decide⟩

/-- C1 (amended): when OCR dispatch raises while processing a page during a
page-collection request, `ocr_all_pages` records that *entire page* as one
errored entry with `text = None` and `regions = []` (partial per-region
results of that page are discarded), leaves that page's stored state
unchanged, and continues with the remaining pages (the results list still
has one entry per page); the same failure during a single-page request is
reported as a hard HTTP 500 failure. -/
theorem c1_batch_page_error_spec (tbl : LatexTables) (clock : Nat)
    (pages : List Page) (layout : Bool) (imgExists : String → Bool)
    (dims : String → Nat × Nat) (detect : String → List Region)
    (ocr : Box → Except String String) (i : Nat) (e : String) (pg : Page)
    (hpage : pages[i]? = some pg)
    (hnc : pg.ocr_text = none)
    (herr : runPageOcr tbl layout pg dims detect ocr = .error e)
    (hfind : pages.find? (fun p => p.num == pg.num) = some pg)
    (himg : imgExists pg.filename = true) :
    (ocr_all_pages tbl clock pages layout dims detect ocr).1.length
      = pages.length ∧
    (ocr_all_pages tbl clock pages layout dims detect ocr).1[i]?
      = some { page_num := pg.num, text := none, regions := [], time := none,
               cached := none, error := some e } ∧
    (ocr_all_pages tbl clock pages layout dims detect ocr).2[i]? = some pg ∧
    ocr_single_page tbl clock pages pg.num layout imgExists dims detect ocr
      = (.httpError 500 ("OCR failed: " ++ e), pages) := by
  have hmap := ocr_all_pages_eq_map tbl clock layout dims detect ocr pages
  have hstep : pageStep tbl clock layout dims detect ocr pg
      = ({ page_num := pg.num, text := none, regions := [], time := none,
           cached := none, error := some e }, pg) := by
    simp only [pageStep, hnc, herr]
  refine ⟨?_, ?_, ?_, ?_⟩
  · rw [hmap]
    simp
  · rw [hmap]
    simp only [List.getElem?_map, hpage, Option.map_some', hstep]
  · rw [hmap]
    simp only [List.getElem?_map, hpage, Option.map_some', hstep]
  · exact ocr_single_page_error tbl clock pages pg.num layout imgExists dims
      detect ocr e pg hfind hnc himg herr

/-- Witness for the amended C1 at the concrete scenario. -/
theorem c1_batch_page_error_witness :
    (ocr_all_pages specTables 7 scenePages true sceneDims sceneDetect
        sceneOcr).1.length = scenePages.length ∧
    (ocr_all_pages specTables 7 scenePages true sceneDims sceneDetect
        sceneOcr).1[0]?
      = some { page_num := 1, text := none, regions := [], time := none,
               cached := none, error := some "boom" } ∧
    (ocr_all_pages specTables 7 scenePages true sceneDims sceneDetect
        sceneOcr).2[0]?
      = some { num := 1, filename := "f", ocr_text := none,
               ocr_regions := none, ocr_time := none } ∧
    ocr_single_page specTables 7 scenePages 1 true (fun _ => true) sceneDims
        sceneDetect sceneOcr
      = (.httpError 500 ("OCR failed: " ++ "boom"), scenePages) :=
  c1_batch_page_error_spec specTables 7 scenePages true (fun _ => true)
    sceneDims sceneDetect sceneOcr 0 "boom"
    { num := 1, filename := "f", ocr_text := none, ocr_regions := none,
      ocr_time := none }
    (by decide) rfl rfl (by decide) rfl

/-! ## Lemmas about the document assembler -/

theorem flushMdTable_mem {buf : List (List Char)} {e : MdElement}
    (h : e ∈ flushMdTable buf) :
    ∃ rows hdr, e = MdElement.table rows hdr := by
  simp only [flushMdTable] at h
  split_ifs at h with h1 h2
  · simp at h
  · simp at h
  · exact ⟨_, _, List.mem_singleton.mp h⟩

theorem classifyLine_mem {t : List Char} {e : MdElement}
    (h : e ∈ classifyLine t) :
    (∃ s, e = MdElement.heading 3 s) ∨ (∃ s, e = MdElement.heading 2 s) ∨
    (∃ s, e = MdElement.heading 1 s) ∨ (∃ s, e = MdElement.paragraph s) := by
  unfold classifyLine at h
  split_ifs at h with h1 h2 h3 h4
  · exact Or.inl ⟨_, List.mem_singleton.mp h⟩
  · exact Or.inr (Or.inl ⟨_, List.mem_singleton.mp h⟩)
  · exact Or.inr (Or.inr (Or.inl ⟨_, List.mem_singleton.mp h⟩))
  · simp at h
  · exact Or.inr (Or.inr (Or.inr ⟨_, List.mem_singleton.mp h⟩))

theorem linesGo_mem (lines : List (List Char)) : ∀ (buf : List (List Char))
    (e : MdElement), e ∈ linesGo lines buf →
    (∃ rows hdr, e = MdElement.table rows hdr) ∨
    (∃ s, e = MdElement.heading 3 s) ∨ (∃ s, e = MdElement.heading 2 s) ∨
    (∃ s, e = MdElement.heading 1 s) ∨ (∃ s, e = MdElement.paragraph s) := by
  induction lines with
  | nil =>
    intro buf e h
    exact Or.inl (flushMdTable_mem h)
  | cons line rest ih =>
    intro buf e h
    simp only [linesGo] at h
    split at h
    · exact ih _ e h
    · rcases List.mem_append.mp h with h1 | h2
      · rcases List.mem_append.mp h1 with ha | hb
        · exact Or.inl (flushMdTable_mem ha)
        · exact Or.inr (classifyLine_mem hb)
      · exact ih _ e h2

theorem parse_elem_shape (tok : String → List HtmlTok) (s : String) :
    ∀ e ∈ _parse_ocr_text tok s,
    (∃ rows hdr, e = MdElement.table rows hdr) ∨
    (∃ t, e = MdElement.heading 3 t) ∨ (∃ t, e = MdElement.heading 2 t) ∨
    (∃ t, e = MdElement.heading 1 t) ∨ (∃ t, e = MdElement.paragraph t) := by
  intro e h
  obtain ⟨part, _, hp⟩ := List.mem_flatMap.mp h
  simp only [partElems] at hp
  split_ifs at hp with ht hrows
  · simp at hp
  · exact Or.inl ⟨_, _, List.mem_singleton.mp hp⟩
  · exact linesGo_mem _ _ e hp

theorem pageEvts_shape (tok : String → List HtmlTok) (p : ExportPage) :
    ∀ e ∈ pageEvts tok p,
      e ≠ DocEvent.sectionBreak ∧ ∀ t', e ≠ DocEvent.heading 0 t' := by
  intro e h
  obtain ⟨el, hel, he⟩ := List.mem_flatMap.mp h
  have hshape := parse_elem_shape tok _ el hel
  cases el with
  | heading l t =>
    simp only [elementEvents, List.mem_singleton] at he
    subst he
    refine ⟨by simp, ?_⟩
    intro t' hcontr
    rcases hshape with ⟨rows, hdr, habs⟩ | ⟨s, h3⟩ | ⟨s, h2⟩ | ⟨s, h1⟩ |
      ⟨s, habs⟩ <;> simp_all
  | paragraph t =>
    simp only [elementEvents, List.mem_singleton] at he
    subst he
    exact ⟨by simp, by simp⟩
  | table rows hdr =>
    simp only [elementEvents] at he
    split_ifs at he with hrows
    · simp at he
    · rw [List.mem_singleton.mp he]
      exact ⟨by simp, by simp⟩

/-- The number of section breaks in a body. -/
def countBreaks (l : List DocEvent) : Nat :=
  l.countP (fun e => decide (e = DocEvent.sectionBreak))

theorem countBreaks_pageEvts (tok : String → List HtmlTok) (p : ExportPage) :
    countBreaks (pageEvts tok p) = 0 := by
  rw [countBreaks, List.countP_eq_zero]
  intro e he
  simpa using (pageEvts_shape tok p e he).1

theorem pagesBody_multi (tok : String → List HtmlTok) (ps : List ExportPage) :
    ∀ idx, 0 < idx →
      pagesBody tok true idx ps
        = ps.flatMap (fun q => DocEvent.sectionBreak :: pageEvts tok q) := by
  induction ps with
  | nil => intro idx _; rfl
  | cons p ps ih =>
    intro idx hidx
    simp only [pagesBody, List.flatMap_cons, Bool.true_and, hidx,
      decide_eq_true_eq, if_true, ih (idx + 1) (by omega)]
    simp

theorem countBreaks_flatMap (tok : String → List HtmlTok)
    (ps : List ExportPage) :
    countBreaks (ps.flatMap (fun q => DocEvent.sectionBreak :: pageEvts tok q))
      = ps.length := by
  induction ps with
  | nil => rfl
  | cons p ps ih =>
    have h0 := countBreaks_pageEvts tok p
    rw [countBreaks] at h0
    have ih2 := ih
    rw [countBreaks] at ih2
    simp [countBreaks, List.countP_append, List.countP_cons, h0, ih2,
      Nat.add_comm]

/-- C5: in `_build_docx`, with more than one page the document body begins
with a title heading and contains exactly `pages.length − 1` section
breaks, one before every page after the first, and the per-section footers
show each page's original input number verbatim (`— n —`), centered; with
exactly one page there is no title heading, no section break, and no
footer. -/
theorem c5_build_docx_spec (tok : String → List HtmlTok) (title : String) :
    (∀ (p : ExportPage) (ps : List ExportPage), ps ≠ [] →
      (_build_docx tok title (p :: ps)).body
        = DocEvent.heading 0 title
            :: (pageEvts tok p
                ++ ps.flatMap (fun q => DocEvent.sectionBreak :: pageEvts tok q)) ∧
      countBreaks (_build_docx tok title (p :: ps)).body = ps.length ∧
      (_build_docx tok title (p :: ps)).footers
        = (p :: ps).map (fun q => ("— " ++ toString q.num ++ " —", true))) ∧
    (∀ p : ExportPage,
      (_build_docx tok title [p]).body = pageEvts tok p ∧
      DocEvent.sectionBreak ∉ (_build_docx tok title [p]).body ∧
      (∀ t', DocEvent.heading 0 t' ∉ (_build_docx tok title [p]).body) ∧
      (_build_docx tok title [p]).footers = []) := by
  constructor
  · intro p ps hps
    have hmulti : decide (1 < (p :: ps).length) = true := by
      cases ps with
      | nil => exact absurd rfl hps
      | cons q qs => simp
    have hbody : (_build_docx tok title (p :: ps)).body
        = DocEvent.heading 0 title
            :: (pageEvts tok p
                ++ ps.flatMap (fun q => DocEvent.sectionBreak :: pageEvts tok q)) := by
      simp only [_build_docx, hmulti, if_true]
      simp only [pagesBody, pagesBody_multi tok ps 1 (by omega)]
      simp
    refine ⟨hbody, ?_, ?_⟩
    · rw [hbody]
      simp only [countBreaks, List.countP_cons, List.countP_append]
      have h0 := countBreaks_pageEvts tok p
      rw [countBreaks] at h0
      have h1 := countBreaks_flatMap tok ps
      rw [countBreaks] at h1
      simp [h0, h1]
    · simp only [_build_docx, hmulti, if_true]
  · intro p
    have hm : decide (1 < ([p] : List ExportPage).length) = false := rfl
    have hbody : (_build_docx tok title [p]).body = pageEvts tok p := by
      simp only [_build_docx, hm, Bool.false_eq_true, if_false]
      simp only [pagesBody]
      simp
    refine ⟨hbody, ?_, ?_, ?_⟩
    · rw [hbody]
      intro hmem
      exact (pageEvts_shape tok p _ hmem).1 rfl
    · intro t'
      rw [hbody]
      intro hmem
      exact (pageEvts_shape tok p _ hmem).2 t' rfl
    · simp only [_build_docx, hm, Bool.false_eq_true, if_false]

/-- Witness for C5: a 3-page export has 2 section breaks and per-page
footers; a 1-page export has no section break and no footer. -/
theorem c5_build_docx_witness :
    countBreaks (_build_docx trivialTokenizer "T"
        [⟨1, "a"⟩, ⟨2, "b"⟩, ⟨5, "c"⟩]).body
      = ([⟨2, "b"⟩, ⟨5, "c"⟩] : List ExportPage).length ∧
    (_build_docx trivialTokenizer "T" [⟨1, "a"⟩, ⟨2, "b"⟩, ⟨5, "c"⟩]).footers
      = ([⟨1, "a"⟩, ⟨2, "b"⟩, ⟨5, "c"⟩] : List ExportPage).map
          (fun q => ("— " ++ toString q.num ++ " —", true)) ∧
    DocEvent.sectionBreak ∉ (_build_docx trivialTokenizer "T" [⟨3, "x"⟩]).body ∧
    (_build_docx trivialTokenizer "T" [⟨3, "x"⟩]).footers = [] := by
  have h := c5_build_docx_spec trivialTokenizer "T"
  exact ⟨(h.1 ⟨1, "a"⟩ [⟨2, "b"⟩, ⟨5, "c"⟩] (by simp)).2.1,
         (h.1 ⟨1, "a"⟩ [⟨2, "b"⟩, ⟨5, "c"⟩] (by simp)).2.2,
         (h.2 ⟨3, "x"⟩).2.1, (h.2 ⟨3, "x"⟩).2.2.2⟩
